import Mathlib

/-!
Verification of the spatial interaction modelling notebook (constrained
gravity models).  The notebook works on a single flow table with one row per
origin-destination pair; it fits Poisson regressions, appends derived columns
(marginal totals, coefficients, balancing factors, flow estimates) and checks
the constraint identities.  Here the table is a list of rows over ℝ, Python's
round-half-to-even is modelled explicitly, and the fitted GLM coefficients
appear as parameters constrained by their maximum-likelihood score equations.
-/

namespace UrbanSim

noncomputable section

/-- Row of the flow table cdatasub (the columns the analysis reads). -/
structure FlowRow where
  Orig : String
  Dest : String
  OrigCodeNew : String
  DestCodeNew : String
  Total : ℝ
  Dj2_destsal : ℝ
  Dist : ℝ
  log_Dj2_destsal : ℝ
  log_Oi1_origpop : ℝ
  log_Dist : ℝ

/-- Python / numpy rounding to an integer: round half to even. -/
def pythonRound (x : ℝ) : ℤ :=
  if x - ⌊x⌋ < 1/2 then ⌊x⌋
  else if 1/2 < x - ⌊x⌋ then ⌊x⌋ + 1
  else if Even ⌊x⌋ then ⌊x⌋ else ⌊x⌋ + 1

/-- Python round(x, 3): round to three decimal places, half to even. -/
def pythonRound3 (x : ℝ) : ℝ :=
  (pythonRound (x * 1000) : ℝ) / 1000

theorem pythonRound_err (x : ℝ) : |(pythonRound x : ℝ) - x| ≤ 1/2 := by
  have h0 : (⌊x⌋ : ℝ) ≤ x := Int.floor_le x
  have h1 : x < ⌊x⌋ + 1 := Int.lt_floor_add_one x
  unfold pythonRound
  split_ifs with hlt hgt hev
  · rw [abs_le]; constructor <;> linarith
  · rw [abs_le]; push_cast; constructor <;> linarith
  · rw [abs_le]; constructor <;> linarith
  · rw [abs_le]; push_cast; constructor <;> linarith

theorem pythonRound_intCast (n : ℤ) : pythonRound (n : ℝ) = n := by
  unfold pythonRound
  rw [Int.floor_intCast]
  simp

theorem pythonRound3_err (x : ℝ) : |pythonRound3 x - x| ≤ 1/2000 := by
  have h := pythonRound_err (x * 1000)
  unfold pythonRound3
  rw [abs_le] at h ⊢
  constructor <;> [linarith [h.1]; linarith [h.2]]

/-- Mean of a series (pandas Series.mean). -/
def mean (xs : List ℝ) : ℝ := xs.sum / xs.length

/-- Series centered by its mean (the deviations entering a correlation). -/
def centered (xs : List ℝ) : List ℝ := xs.map (fun v => v - mean xs)

/-- Sum of elementwise products of two series. -/
def sumProd (xs ys : List ℝ) : ℝ := ((xs.zip ys).map (fun p => p.1 * p.2)).sum

/-- Pearson correlation coefficient r as computed by scipy.stats.pearsonr:
covariance sum over the square root of the product of the squared-deviation
sums. -/
def pearsonr (xs ys : List ℝ) : ℝ :=
  sumProd (centered xs) (centered ys) /
    Real.sqrt (sumProd (centered xs) (centered xs) *
      sumProd (centered ys) (centered ys))

/-- CalcRSquared from the notebook: r, p = pearsonr(observed, estimated);
return r squared. -/
def CalcRSquared (observed estimated : List ℝ) : ℝ :=
  (pearsonr observed estimated) ^ 2

/-- Squared residual series res = (observed - estimated)**2. -/
def squaredRes (observed estimated : List ℝ) : List ℝ :=
  (observed.zip estimated).map (fun p => (p.1 - p.2) ^ 2)

/-- Exact root mean square error sqrt(res.mean()), before the rounding the
notebook applies. -/
def rmseExact (observed estimated : List ℝ) : ℝ :=
  Real.sqrt (mean (squaredRes observed estimated))

/-- CalcRMSE from the notebook: round(sqrt(res.mean()), 3). -/
def CalcRMSE (observed estimated : List ℝ) : ℝ :=
  pythonRound3 (rmseExact observed estimated)

/-- Scenario salary function new_sal: rows whose DestCodeNew is E09000002 get
salary 25000, all other rows keep their Dj2_destsal value. -/
def new_sal (row : FlowRow) : ℝ :=
  if row.DestCodeNew = "E09000002" then 25000 else row.Dj2_destsal

theorem sumProd_self_nonneg (xs : List ℝ) : 0 ≤ sumProd xs xs := by
  induction xs with
  | nil => simp [sumProd]
  | cons a l ih =>
    have h : sumProd (a :: l) (a :: l) = a * a + sumProd l l := by
      simp [sumProd]
    rw [h]
    nlinarith [mul_self_nonneg a]

theorem sumProd_comm (xs ys : List ℝ) : sumProd xs ys = sumProd ys xs := by
  induction xs generalizing ys with
  | nil => cases ys <;> simp [sumProd]
  | cons a l ih =>
    cases ys with
    | nil => simp [sumProd]
    | cons b m =>
      have h1 : sumProd (a :: l) (b :: m) = a * b + sumProd l m := by
        simp [sumProd]
      have h2 : sumProd (b :: m) (a :: l) = b * a + sumProd m l := by
        simp [sumProd]
      rw [h1, h2, ih m]
      ring

/-- C5: for equal-length series with at least two elements and nonzero
squared-deviation sums, CalcRSquared is the square of the Pearson correlation
coefficient: the squared centered cross-product sum divided by the product of
the centered square sums (correlation-based, not residual-based). -/
theorem CalcRSquared_eq_pearson_sq (observed estimated : List ℝ)
    (hlen : observed.length = estimated.length)
    (hlen2 : 2 ≤ observed.length)
    (hx : sumProd (centered observed) (centered observed) ≠ 0)
    (hy : sumProd (centered estimated) (centered estimated) ≠ 0) :
    CalcRSquared observed estimated =
      (sumProd (centered observed) (centered estimated)) ^ 2 /
        (sumProd (centered observed) (centered observed) *
          sumProd (centered estimated) (centered estimated)) := by
  have hx0 : 0 ≤ sumProd (centered observed) (centered observed) :=
    sumProd_self_nonneg _
  have hy0 : 0 ≤ sumProd (centered estimated) (centered estimated) :=
    sumProd_self_nonneg _
  unfold CalcRSquared pearsonr
  rw [div_pow, Real.sq_sqrt (mul_nonneg hx0 hy0)]

theorem CalcRSquared_eq_pearson_sq_witness :
    CalcRSquared [(0:ℝ), 2] [(0:ℝ), 4] =
      (sumProd (centered [(0:ℝ), 2]) (centered [(0:ℝ), 4])) ^ 2 /
        (sumProd (centered [(0:ℝ), 2]) (centered [(0:ℝ), 2]) *
          sumProd (centered [(0:ℝ), 4]) (centered [(0:ℝ), 4])) :=
  CalcRSquared_eq_pearson_sq [(0:ℝ), 2] [(0:ℝ), 4] rfl (by norm_num)
    (by norm_num [sumProd, centered, mean])
    (by norm_num [sumProd, centered, mean])

/-- C10: CalcRSquared is symmetric in its two arguments, because the squared
Pearson correlation is invariant under swapping the two series. -/
theorem CalcRSquared_symm (observed estimated : List ℝ) :
    CalcRSquared observed estimated = CalcRSquared estimated observed := by
  unfold CalcRSquared pearsonr
  rw [sumProd_comm (centered observed) (centered estimated),
    mul_comm (sumProd (centered observed) (centered observed))
      (sumProd (centered estimated) (centered estimated))]

/-- C6 counterexample: CalcRMSE does not return the exact root mean square
error; on observed [1/16], estimated [0] the exact RMSE is 1/16 = 0.0625 but
the function returns 0.062. -/
theorem CalcRMSE_not_exact :
    CalcRMSE [(1:ℝ)/16] [0] ≠ rmseExact [(1:ℝ)/16] [0] := by
  have hexact : rmseExact [(1:ℝ)/16] [0] = 1/16 := by
    have h1 : mean (squaredRes [(1:ℝ)/16] [0]) = ((1:ℝ)/16) ^ 2 := by
      norm_num [mean, squaredRes]
    unfold rmseExact
    rw [h1, Real.sqrt_sq (by norm_num)]
  have hfloor : ⌊((1:ℝ)/16) * 1000⌋ = 62 :=
    Int.floor_eq_iff.mpr (by norm_num)
  have hround : pythonRound (((1:ℝ)/16) * 1000) = 62 := by
    unfold pythonRound
    rw [hfloor]
    have h1 : ¬(((1:ℝ)/16) * 1000 - ((62:ℤ):ℝ) < 1/2) := by push_cast; norm_num
    have h2 : ¬((1:ℝ)/2 < ((1:ℝ)/16) * 1000 - ((62:ℤ):ℝ)) := by push_cast; norm_num
    have h3 : Even (62:ℤ) := by decide
    rw [if_neg h1, if_neg h2, if_pos h3]
  unfold CalcRMSE
  rw [hexact]
  unfold pythonRound3
  rw [hround]
  norm_num

/-- C6 amended: CalcRMSE returns the root mean square error rounded to three
decimal places, hence within 1/2000 of the exact RMSE sqrt(mean residual
squares). -/
theorem CalcRMSE_approx (observed estimated : List ℝ) :
    |CalcRMSE observed estimated - rmseExact observed estimated| ≤ 1/2000 :=
  pythonRound3_err (rmseExact observed estimated)

/-- C8: every CalcRMSE result lies on the three-decimal grid z/1000, and two
input pairs whose exact RMSEs differ (by less than the granularity 1/1000)
can map to the identical output. -/
theorem CalcRMSE_three_decimal_grid :
    (∀ observed estimated : List ℝ,
        ∃ z : ℤ, CalcRMSE observed estimated = (z : ℝ) / 1000) ∧
    CalcRMSE [(1:ℝ)/10000] [0] = CalcRMSE [(1:ℝ)/5000] [0] ∧
    rmseExact [(1:ℝ)/10000] [0] ≠ rmseExact [(1:ℝ)/5000] [0] ∧
    |rmseExact [(1:ℝ)/10000] [0] - rmseExact [(1:ℝ)/5000] [0]| < 1/1000 := by
  have ha : rmseExact [(1:ℝ)/10000] [0] = 1/10000 := by
    have h1 : mean (squaredRes [(1:ℝ)/10000] [0]) = ((1:ℝ)/10000) ^ 2 := by
      norm_num [mean, squaredRes]
    unfold rmseExact
    rw [h1, Real.sqrt_sq (by norm_num)]
  have hb : rmseExact [(1:ℝ)/5000] [0] = 1/5000 := by
    have h1 : mean (squaredRes [(1:ℝ)/5000] [0]) = ((1:ℝ)/5000) ^ 2 := by
      norm_num [mean, squaredRes]
    unfold rmseExact
    rw [h1, Real.sqrt_sq (by norm_num)]
  have hra : pythonRound (((1:ℝ)/10000) * 1000) = 0 := by
    have hf : ⌊((1:ℝ)/10000) * 1000⌋ = 0 := Int.floor_eq_iff.mpr (by norm_num)
    unfold pythonRound
    rw [hf]
    have h1 : ((1:ℝ)/10000) * 1000 - ((0:ℤ):ℝ) < 1/2 := by push_cast; norm_num
    rw [if_pos h1]
  have hrb : pythonRound (((1:ℝ)/5000) * 1000) = 0 := by
    have hf : ⌊((1:ℝ)/5000) * 1000⌋ = 0 := Int.floor_eq_iff.mpr (by norm_num)
    unfold pythonRound
    rw [hf]
    have h1 : ((1:ℝ)/5000) * 1000 - ((0:ℤ):ℝ) < 1/2 := by push_cast; norm_num
    rw [if_pos h1]
  refine ⟨fun observed estimated =>
    ⟨pythonRound (rmseExact observed estimated * 1000), rfl⟩, ?_, ?_, ?_⟩
  · unfold CalcRMSE pythonRound3
    rw [ha, hb, hra, hrb]
  · rw [ha, hb]; norm_num
  · rw [ha, hb]; rw [abs_lt]; constructor <;> norm_num

/-- C9: the scenario salary function is the identity away from the perturbed
zone: rows with DestCodeNew equal to E09000002 get exactly 25000, every other
row keeps its Dj2_destsal value. -/
theorem new_sal_spec (row : FlowRow) :
    (row.DestCodeNew = "E09000002" → new_sal row = 25000) ∧
    (row.DestCodeNew ≠ "E09000002" → new_sal row = row.Dj2_destsal) := by
  constructor
  · intro h; simp [new_sal, h]
  · intro h; simp [new_sal, h]

theorem new_sal_spec_witness :
    new_sal ⟨"Barking", "Barking", "E09000002", "E09000002", 0, 16200, 1, 0, 0, 0⟩
        = 25000 ∧
    new_sal ⟨"City", "City", "E09000001", "E09000001", 0, 20000, 1, 0, 0, 0⟩
        = 20000 :=
  ⟨(new_sal_spec _).1 rfl, (new_sal_spec _).2 (by decide)⟩

/-- Known origin totals O_i: per-origin sums of the observed Total column
(groupby OrigCodeNew, sum of Total). -/
def O_i (t : List FlowRow) (i : String) : ℝ :=
  ((t.filter (fun r => r.OrigCodeNew = i)).map (fun r => r.Total)).sum

/-- Known destination totals D_j: per-destination sums of the observed Total
column (groupby DestCodeNew, sum of Total). -/
def D_j (t : List FlowRow) (j : String) : ℝ :=
  ((t.filter (fun r => r.DestCodeNew = j)).map (fun r => r.Total)).sum

/-- Production-constrained estimate before rounding:
exp(alpha_i + gamma * log Dj2_destsal - beta * log Dist), with alpha_i the
origin fixed effect joined per OrigCodeNew and beta the negated fitted
log-distance coefficient. -/
def prodsimest1 (alpha_i : String → ℝ) (gamma beta : ℝ) (r : FlowRow) : ℝ :=
  Real.exp (alpha_i r.OrigCodeNew + gamma * r.log_Dj2_destsal
    - beta * r.log_Dist)

/-- Attraction-constrained fitted mean: exp(gamma_j + alphaO * log
Oi1_origpop + betaD * log Dist), gamma_j the destination fixed effect and
alphaO, betaD the raw fitted coefficients of the attrSim formula. -/
def attrLambda (gamma_j : String → ℝ) (alphaO betaD : ℝ) (r : FlowRow) : ℝ :=
  Real.exp (gamma_j r.DestCodeNew + alphaO * r.log_Oi1_origpop
    + betaD * r.log_Dist)

/-- Maximum-likelihood score equation of the Poisson GLM for the origin fixed
effect alpha_i: the per-origin residuals of the fitted means sum to zero.
The fitted coefficients returned by the GLM solver satisfy this by
stationarity of the Poisson log-likelihood. -/
def prodScoreEq (t : List FlowRow) (alpha_i : String → ℝ)
    (gamma beta : ℝ) (i : String) : Prop :=
  ((t.filter (fun r => r.OrigCodeNew = i)).map
    (fun r => r.Total - prodsimest1 alpha_i gamma beta r)).sum = 0

/-- Maximum-likelihood score equation of the Poisson GLM for the destination
fixed effect gamma_j: the per-destination residuals of the fitted means sum
to zero. -/
def attrScoreEq (t : List FlowRow) (gamma_j : String → ℝ)
    (alphaO betaD : ℝ) (j : String) : Prop :=
  ((t.filter (fun r => r.DestCodeNew = j)).map
    (fun r => r.Total - attrLambda gamma_j alphaO betaD r)).sum = 0

theorem sum_map_sub {α : Type} (l : List α) (f g : α → ℝ) :
    (l.map (fun x => f x - g x)).sum = (l.map f).sum - (l.map g).sum := by
  induction l with
  | nil => simp
  | cons a s ih =>
    simp only [List.map_cons, List.sum_cons, ih]
    ring

theorem abs_sum_map_sub_le {α : Type} (l : List α) (f g : α → ℝ)
    (h : ∀ x ∈ l, |f x - g x| ≤ 1/2) :
    |(l.map f).sum - (l.map g).sum| ≤ (l.length : ℝ) / 2 := by
  induction l with
  | nil => simp
  | cons a s ih =>
    have ha := h a (List.mem_cons_self a s)
    have hs := ih (fun x hx => h x (List.mem_cons_of_mem a hx))
    simp only [List.map_cons, List.sum_cons, List.length_cons]
    have hsplit : f a + (s.map f).sum - (g a + (s.map g).sum)
        = (f a - g a) + ((s.map f).sum - (s.map g).sum) := by ring
    rw [hsplit]
    calc |(f a - g a) + ((s.map f).sum - (s.map g).sum)|
        ≤ |f a - g a| + |(s.map f).sum - (s.map g).sum| := abs_add _ _
      _ ≤ 1/2 + (s.length : ℝ)/2 := add_le_add ha hs
      _ = ((s.length + 1 : ℕ) : ℝ)/2 := by push_cast; ring

/-- C1: when the fitted origin fixed effect satisfies its Poisson score
equation, the per-origin sum of the rounded production-constrained estimates
prodsimest1 equals the known origin total O_i to within rounding error (half
a unit per row of the origin). -/
theorem prodsim_origin_constraint (t : List FlowRow) (alpha_i : String → ℝ)
    (gamma beta : ℝ) (i : String)
    (hfit : prodScoreEq t alpha_i gamma beta i) :
    |((t.filter (fun r => r.OrigCodeNew = i)).map
        (fun r => (pythonRound (prodsimest1 alpha_i gamma beta r) : ℝ))).sum -
      O_i t i|
      ≤ ((t.filter (fun r => r.OrigCodeNew = i)).length : ℝ) / 2 := by
  have h := hfit
  unfold prodScoreEq at h
  rw [sum_map_sub] at h
  have hsum : ((t.filter (fun r => r.OrigCodeNew = i)).map
      (fun r => prodsimest1 alpha_i gamma beta r)).sum = O_i t i := by
    unfold O_i
    linarith
  have hb := abs_sum_map_sub_le (t.filter (fun r => r.OrigCodeNew = i))
    (fun r => (pythonRound (prodsimest1 alpha_i gamma beta r) : ℝ))
    (fun r => prodsimest1 alpha_i gamma beta r)
    (fun r _ => pythonRound_err _)
  rw [hsum] at hb
  exact hb

/-- C2: when the fitted destination fixed effect satisfies its Poisson score
equation, the per-destination sum of the rounded attraction-constrained
fitted flows equals the known destination total D_j to within rounding error
(half a unit per row of the destination). -/
theorem attrsim_dest_constraint (t : List FlowRow) (gamma_j : String → ℝ)
    (alphaO betaD : ℝ) (j : String)
    (hfit : attrScoreEq t gamma_j alphaO betaD j) :
    |((t.filter (fun r => r.DestCodeNew = j)).map
        (fun r => (pythonRound (attrLambda gamma_j alphaO betaD r) : ℝ))).sum -
      D_j t j|
      ≤ ((t.filter (fun r => r.DestCodeNew = j)).length : ℝ) / 2 := by
  have h := hfit
  unfold attrScoreEq at h
  rw [sum_map_sub] at h
  have hsum : ((t.filter (fun r => r.DestCodeNew = j)).map
      (fun r => attrLambda gamma_j alphaO betaD r)).sum = D_j t j := by
    unfold D_j
    linarith
  have hb := abs_sum_map_sub_le (t.filter (fun r => r.DestCodeNew = j))
    (fun r => (pythonRound (attrLambda gamma_j alphaO betaD r) : ℝ))
    (fun r => attrLambda gamma_j alphaO betaD r)
    (fun r _ => pythonRound_err _)
  rw [hsum] at hb
  exact hb

/-- Two-row single-origin witness table for the production constraint. -/
def wrow1 : FlowRow := ⟨"OrigA", "DestX", "A", "X", 2, 1, 1, 0, 0, 0⟩

def wrow2 : FlowRow := ⟨"OrigA", "DestY", "A", "Y", 2, 1, 1, 0, 0, 0⟩

theorem prodsim_origin_constraint_witness :
    prodScoreEq [wrow1, wrow2] (fun _ => Real.log 2) 0 0 "A" ∧
    |(([wrow1, wrow2].filter (fun r => r.OrigCodeNew = "A")).map
        (fun r => (pythonRound (prodsimest1 (fun _ => Real.log 2) 0 0 r) : ℝ))).sum -
      O_i [wrow1, wrow2] "A"|
      ≤ (([wrow1, wrow2].filter (fun r => r.OrigCodeNew = "A")).length : ℝ) / 2 := by
  have he : Real.exp (Real.log 2) = 2 := Real.exp_log (by norm_num)
  have hs : prodScoreEq [wrow1, wrow2] (fun _ => Real.log 2) 0 0 "A" := by
    simp [prodScoreEq, prodsimest1, wrow1, wrow2, List.filter, he]
  exact ⟨hs, prodsim_origin_constraint _ _ _ _ _ hs⟩

/-- Two-row single-destination witness table for the attraction constraint. -/
def wrow3 : FlowRow := ⟨"OrigA", "DestX", "A", "X", 3, 1, 1, 0, 0, 0⟩

def wrow4 : FlowRow := ⟨"OrigB", "DestX", "B", "X", 3, 1, 1, 0, 0, 0⟩

theorem attrsim_dest_constraint_witness :
    attrScoreEq [wrow3, wrow4] (fun _ => Real.log 3) 0 0 "X" ∧
    |(([wrow3, wrow4].filter (fun r => r.DestCodeNew = "X")).map
        (fun r => (pythonRound (attrLambda (fun _ => Real.log 3) 0 0 r) : ℝ))).sum -
      D_j [wrow3, wrow4] "X"|
      ≤ (([wrow3, wrow4].filter (fun r => r.DestCodeNew = "X")).length : ℝ) / 2 := by
  have he : Real.exp (Real.log 3) = 3 := Real.exp_log (by norm_num)
  have hs : attrScoreEq [wrow3, wrow4] (fun _ => Real.log 3) 0 0 "X" := by
    simp [attrScoreEq, attrLambda, wrow3, wrow4, List.filter, he]
  exact ⟨hs, attrsim_dest_constraint _ _ _ _ _ hs⟩

/-- Destination attractiveness power term from the notebook:
Dj2_gamma = Dj2_destsal ** gamma. -/
def Dj2_gamma (gamma : ℝ) (r : FlowRow) : ℝ := r.Dj2_destsal ^ gamma

/-- Distance power term exactly as the notebook computes it:
dist_beta = Dist ** beta, where beta is the positive distance-decay
parameter (the negated fitted log-distance coefficient).  Note the exponent
is +beta, not -beta. -/
def dist_beta (beta : ℝ) (r : FlowRow) : ℝ := r.Dist ^ beta

/-- First stage of the balancing factor: Ai1 = Dj2_gamma * dist_beta. -/
def Ai1 (gamma beta : ℝ) (r : FlowRow) : ℝ :=
  Dj2_gamma gamma r * dist_beta beta r

/-- Balancing factor as the code computes it: per-origin sum of Ai1, then
divided into 1. -/
def A_i (t : List FlowRow) (gamma beta : ℝ) (i : String) : ℝ :=
  1 / ((t.filter (fun r => r.OrigCodeNew = i)).map
        (fun r => Ai1 gamma beta r)).sum

/-- Closed-form reconstruction of the estimates from the code:
prodsimest3 = A_i * O_i * Dj2_gamma * dist_beta. -/
def prodsimest3 (t : List FlowRow) (gamma beta : ℝ) (r : FlowRow) : ℝ :=
  A_i t gamma beta r.OrigCodeNew * O_i t r.OrigCodeNew
    * Dj2_gamma gamma r * dist_beta beta r

/-- Balancing factor as the spec and the notebook equations state it:
A_i = 1 / Σ_j D_j^gamma * d_ij^(-beta), the distance raised to the power
minus beta. -/
def A_i_spec (t : List FlowRow) (gamma beta : ℝ) (i : String) : ℝ :=
  1 / ((t.filter (fun r => r.OrigCodeNew = i)).map
        (fun r => r.Dj2_destsal ^ gamma * r.Dist ^ (-beta))).sum

/-- Failing input: one origin with two destinations at distances 1 and 4,
salaries 1, observed flows 2 and 1; fitted configuration alpha = log 2,
gamma = 0, beta = 1/2 satisfies the origin score equation exactly. -/
def crow1 : FlowRow := ⟨"OrigA", "DestX", "A", "X", 2, 1, 1, 0, 0, 0⟩

def crow2 : FlowRow := ⟨"OrigA", "DestY", "A", "Y", 1, 1, 4, 0, 0, Real.log 4⟩

def ctable : List FlowRow := [crow1, crow2]

theorem rpow_four_half : (4:ℝ) ^ ((1:ℝ)/2) = 2 := by
  rw [show ((1:ℝ)/2) = (1/2 : ℝ) by norm_num, ← Real.sqrt_eq_rpow,
    show (4:ℝ) = 2^2 by norm_num]
  exact Real.sqrt_sq (by norm_num)

theorem rpow_four_neg_half : (4:ℝ) ^ (-((1:ℝ)/2)) = 1/2 := by
  rw [Real.rpow_neg (by norm_num : (0:ℝ) ≤ 4), rpow_four_half]
  norm_num

theorem ctable_filter_A :
    ctable.filter (fun r => r.OrigCodeNew = "A") = [crow1, crow2] := by
  simp [ctable, crow1, crow2, List.filter]

theorem ctable_A_i : A_i ctable 0 (1/2) "A" = 1/3 := by
  have h1 : Ai1 0 (1/2) crow1 = 1 := by
    simp [Ai1, Dj2_gamma, dist_beta, crow1, Real.one_rpow, Real.rpow_zero]
  have h2 : Ai1 0 (1/2) crow2 = 2 := by
    simp only [Ai1, Dj2_gamma, dist_beta, crow2]
    rw [Real.rpow_zero, rpow_four_half]
    norm_num
  unfold A_i
  rw [ctable_filter_A]
  simp only [List.map_cons, List.map_nil, List.sum_cons, List.sum_nil, h1, h2]
  norm_num

theorem ctable_O_i : O_i ctable "A" = 3 := by
  simp [O_i, ctable, crow1, crow2, List.filter]
  norm_num

theorem ctable_A_i_spec : A_i_spec ctable 0 (1/2) "A" = 2/3 := by
  have h1 : crow1.Dj2_destsal ^ (0:ℝ) * crow1.Dist ^ (-((1:ℝ)/2)) = 1 := by
    simp [crow1, Real.one_rpow, Real.rpow_zero]
  have h2 : crow2.Dj2_destsal ^ (0:ℝ) * crow2.Dist ^ (-((1:ℝ)/2)) = 1/2 := by
    simp only [crow2]
    rw [Real.rpow_zero, rpow_four_neg_half]
    norm_num
  unfold A_i_spec
  rw [ctable_filter_A]
  simp only [List.map_cons, List.map_nil, List.sum_cons, List.sum_nil, h1, h2]
  norm_num

/-- C4 refutation: the balancing factor written into the table divides one by
the sum of Dj2_destsal^gamma times Dist^(+beta), not Dist^(-beta) as the
equation A_i = 1/Sigma_j D_j^gamma d_ij^(-beta) requires; at the concrete
failing input the code yields 1/3 while the stated equation yields 2/3. -/
theorem A_i_sign_flip :
    A_i ctable 0 (1/2) "A" = 1/3 ∧
    A_i_spec ctable 0 (1/2) "A" = 2/3 ∧
    A_i ctable 0 (1/2) "A" ≠ A_i_spec ctable 0 (1/2) "A" := by
  refine ⟨ctable_A_i, ctable_A_i_spec, ?_⟩
  rw [ctable_A_i, ctable_A_i_spec]
  norm_num

theorem pythonRound_one : pythonRound (1:ℝ) = 1 := by
  rw [show (1:ℝ) = ((1:ℤ):ℝ) by norm_num]
  exact pythonRound_intCast 1

theorem pythonRound_two : pythonRound (2:ℝ) = 2 := by
  rw [show (2:ℝ) = ((2:ℤ):ℝ) by norm_num]
  exact pythonRound_intCast 2

theorem log_four : Real.log 4 = 2 * Real.log 2 := by
  rw [show (4:ℝ) = 2 ^ (2:ℕ) by norm_num, Real.log_pow]
  push_cast
  ring

/-- C3 refutation: at a fitted configuration that satisfies the origin score
equation exactly (so prodsimest1 is the genuine regression fit), the
closed-form reconstruction prodsimest3 — which raises Dist to +beta — does
not reproduce prodsimest1 after rounding: on the first row of the failing
input prodsimest3 rounds to 1 while prodsimest1 rounds to 2. -/
theorem prodsimest3_ne_prodsimest1 :
    prodScoreEq ctable (fun _ => Real.log 2) 0 (1/2) "A" ∧
    pythonRound (prodsimest3 ctable 0 (1/2) crow1) = 1 ∧
    pythonRound (prodsimest1 (fun _ => Real.log 2) 0 (1/2) crow1) = 2 ∧
    pythonRound (prodsimest3 ctable 0 (1/2) crow1) ≠
      pythonRound (prodsimest1 (fun _ => Real.log 2) 0 (1/2) crow1) := by
  have hr1 : prodsimest1 (fun _ => Real.log 2) 0 (1/2) crow1 = 2 := by
    unfold prodsimest1
    simp only [crow1]
    rw [show Real.log 2 + 0 * 0 - 1/2 * 0 = Real.log 2 by ring]
    exact Real.exp_log (by norm_num)
  have hr2 : prodsimest1 (fun _ => Real.log 2) 0 (1/2) crow2 = 1 := by
    unfold prodsimest1
    simp only [crow2]
    rw [log_four, show Real.log 2 + 0 * 0 - 1/2 * (2 * Real.log 2) = 0 by ring]
    exact Real.exp_zero
  have hs : prodScoreEq ctable (fun _ => Real.log 2) 0 (1/2) "A" := by
    unfold prodScoreEq
    rw [ctable_filter_A]
    simp only [List.map_cons, List.map_nil, List.sum_cons, List.sum_nil,
      hr1, hr2, show crow1.Total = 2 from rfl, show crow2.Total = 1 from rfl]
    norm_num
  have hest3 : prodsimest3 ctable 0 (1/2) crow1 = 1 := by
    unfold prodsimest3
    simp only [show crow1.OrigCodeNew = "A" from rfl]
    rw [ctable_A_i, ctable_O_i]
    simp [Dj2_gamma, dist_beta, crow1, Real.one_rpow, Real.rpow_zero]
  refine ⟨hs, ?_, ?_, ?_⟩
  · rw [hest3]; exact pythonRound_one
  · rw [hr1]; exact pythonRound_two
  · rw [hest3, hr1, pythonRound_one, pythonRound_two]
    norm_num

/-- Flow-table row together with the derived columns the notebook appends
(absent columns are none before their derivation step runs). -/
structure XRow where
  base : FlowRow
  O_i : Option ℝ := none
  D_j : Option ℝ := none
  alpha_i : Option ℝ := none
  prodsimest1 : Option ℝ := none
  Dj3_destsalScenario : Option ℝ := none
  prodsimest2 : Option ℝ := none
  Ai1 : Option ℝ := none
  A_i : Option ℝ := none
  prodsimest3 : Option ℝ := none
  A_i2 : Option ℝ := none
  prodsimest4 : Option ℝ := none
  attrsimFitted : Option ℝ := none

/-- Pandas left merge of a keyed value table into the flow table: every
left row is kept; a row with matching right rows is replaced by one updated
copy per match (with unique right keys this appends exactly one column
value), and an unmatched row passes through unchanged. -/
def leftMerge (key : XRow → String) (upd : XRow → ℝ → XRow)
    (t : List XRow) (right : List (String × ℝ)) : List XRow :=
  match t with
  | [] => []
  | r :: rest =>
    (if (right.filter (fun p => p.1 = key r)).isEmpty then [r]
     else (right.filter (fun p => p.1 = key r)).map (fun p => upd r p.2)) ++
      leftMerge key upd rest right

/-- Pandas groupby(key).agg(sum): one row per distinct key value, holding
the sum of the aggregated column over the rows of that group. -/
def groupbySum (key : XRow → String) (val : XRow → ℝ)
    (t : List XRow) : List (String × ℝ) :=
  ((t.map key).dedup).map
    (fun k => (k, ((t.filter (fun r => key r = k)).map val).sum))

/-- Merge the O_i marginal sums (groupby OrigCodeNew, sum of Total). -/
def mergeOi (t : List XRow) : List XRow :=
  leftMerge (fun r => r.base.OrigCodeNew) (fun r v => { r with O_i := some v })
    t (groupbySum (fun r => r.base.OrigCodeNew) (fun r => r.base.Total) t)

/-- Merge the D_j marginal sums (groupby DestCodeNew, sum of Total). -/
def mergeDj (t : List XRow) : List XRow :=
  leftMerge (fun r => r.base.DestCodeNew) (fun r v => { r with D_j := some v })
    t (groupbySum (fun r => r.base.DestCodeNew) (fun r => r.base.Total) t)

/-- Join the fitted origin fixed effects (the coefs frame) on OrigCodeNew. -/
def mergeAlpha (coefs : List (String × ℝ)) (t : List XRow) : List XRow :=
  leftMerge (fun r => r.base.OrigCodeNew)
    (fun r v => { r with alpha_i := some v }) t coefs

/-- Assign the rounded production-constrained estimates prodsimest1. -/
def assignProdsimest1 (gamma beta : ℝ) (t : List XRow) : List XRow :=
  t.map (fun r =>
    { r with prodsimest1 := some ((pythonRound (Real.exp (r.alpha_i.getD 0 + gamma * r.base.log_Dj2_destsal - beta * r.base.log_Dist)) : ℝ)) })

/-- Assign the scenario salary column Dj3_destsalScenario via new_sal. -/
def assignDj3 (t : List XRow) : List XRow :=
  t.map (fun r => { r with Dj3_destsalScenario := some (new_sal r.base) })

/-- Assign the rounded scenario estimates prodsimest2. -/
def assignProdsimest2 (gamma beta : ℝ) (t : List XRow) : List XRow :=
  t.map (fun r =>
    { r with prodsimest2 := some ((pythonRound (Real.exp (r.alpha_i.getD 0 + gamma * Real.log (r.Dj3_destsalScenario.getD 0) - beta * r.base.log_Dist)) : ℝ)) })

/-- Assign the first-stage balancing column Ai1 = Dj2_destsal^gamma *
Dist^beta. -/
def assignAi1 (gamma beta : ℝ) (t : List XRow) : List XRow :=
  t.map (fun r =>
    { r with Ai1 := some (r.base.Dj2_destsal ^ gamma * r.base.Dist ^ beta) })

/-- Merge the balancing factors A_i (one over the per-origin Ai1 sums). -/
def mergeAi (t : List XRow) : List XRow :=
  leftMerge (fun r => r.base.OrigCodeNew) (fun r v => { r with A_i := some v })
    t ((groupbySum (fun r => r.base.OrigCodeNew) (fun r => r.Ai1.getD 0) t).map
        (fun p => (p.1, 1 / p.2)))

/-- Assign the rounded closed-form estimates prodsimest3. -/
def assignProdsimest3 (gamma beta : ℝ) (t : List XRow) : List XRow :=
  t.map (fun r =>
    { r with prodsimest3 := some ((pythonRound (r.A_i.getD 0 * r.O_i.getD 0 * r.base.Dj2_destsal ^ gamma * r.base.Dist ^ beta) : ℝ)) })

/-- Overwrite Ai1 with the scenario first stage Dj3^gamma * Dist^beta. -/
def assignAi1Scenario (gamma beta : ℝ) (t : List XRow) : List XRow :=
  t.map (fun r =>
    { r with Ai1 := some ((r.Dj3_destsalScenario.getD 0) ^ gamma * r.base.Dist ^ beta) })

/-- Merge the scenario balancing factors A_i2. -/
def mergeAi2 (t : List XRow) : List XRow :=
  leftMerge (fun r => r.base.OrigCodeNew) (fun r v => { r with A_i2 := some v })
    t ((groupbySum (fun r => r.base.OrigCodeNew) (fun r => r.Ai1.getD 0) t).map
        (fun p => (p.1, 1 / p.2)))

/-- Assign the rounded scenario closed-form estimates prodsimest4. -/
def assignProdsimest4 (gamma beta : ℝ) (t : List XRow) : List XRow :=
  t.map (fun r =>
    { r with prodsimest4 := some ((pythonRound (r.A_i2.getD 0 * r.O_i.getD 0 * (r.Dj3_destsalScenario.getD 0) ^ gamma * r.base.Dist ^ beta) : ℝ)) })

/-- Assign the rounded attraction-model predictions attrsimFitted. -/
def assignAttrsimFitted (gamma_j : String → ℝ) (alphaO betaD : ℝ)
    (t : List XRow) : List XRow :=
  t.map (fun r =>
    { r with attrsimFitted := some ((pythonRound (attrLambda gamma_j alphaO betaD r.base) : ℝ)) })

/-- Column-derivation pipeline of the notebook, in source order: O_i and D_j
marginals, alpha_i coefficients, prodsimest1, the scenario salary, the
balancing factors and closed-form estimates, and the attraction fits. -/
def pipeline (coefs : List (String × ℝ)) (gamma beta : ℝ)
    (gamma_j : String → ℝ) (alphaO betaD : ℝ) (t : List XRow) : List XRow :=
  assignAttrsimFitted gamma_j alphaO betaD
    (assignProdsimest4 gamma beta
      (mergeAi2 (assignAi1Scenario gamma beta
        (assignProdsimest3 gamma beta
          (mergeAi (assignAi1 gamma beta
            (assignProdsimest2 gamma beta
              (assignDj3
                (assignProdsimest1 gamma beta
                  (mergeAlpha coefs
                    (mergeDj (mergeOi t))))))))))))

theorem filter_key_length_le_one (right : List (String × ℝ)) (k : String)
    (h : (right.map Prod.fst).Nodup) :
    (right.filter (fun p => p.1 = k)).length ≤ 1 := by
  induction right with
  | nil => simp
  | cons p rs ih =>
    rw [List.map_cons, List.nodup_cons] at h
    by_cases hp : p.1 = k
    · have hrs : rs.filter (fun q => q.1 = k) = [] := by
        rw [List.filter_eq_nil_iff]
        intro q hq hqk
        exact h.1 (by
          rw [hp, ← of_decide_eq_true hqk]
          exact List.mem_map_of_mem Prod.fst hq)
      rw [List.filter_cons_of_pos (by simp [hp]), hrs]
      simp
    · rw [List.filter_cons_of_neg (by simp [hp])]
      exact ih h.2

theorem leftMerge_map_base (key : XRow → String) (upd : XRow → ℝ → XRow)
    (t : List XRow) (right : List (String × ℝ))
    (hkeys : (right.map Prod.fst).Nodup)
    (hupd : ∀ r v, (upd r v).base = r.base) :
    (leftMerge key upd t right).map XRow.base = t.map XRow.base := by
  induction t with
  | nil => rfl
  | cons r rest ih =>
    have hlen := filter_key_length_le_one right (key r) hkeys
    rw [leftMerge, List.map_append, ih, List.map_cons]
    cases hfil : right.filter (fun p => p.1 = key r) with
    | nil => simp [hfil]
    | cons p ps =>
      rw [hfil] at hlen
      have hps : ps = [] := by
        cases ps with
        | nil => rfl
        | cons q qs => simp at hlen
      subst hps
      simp [hfil, hupd]

theorem groupbySum_keys_nodup (key : XRow → String) (val : XRow → ℝ)
    (t : List XRow) : ((groupbySum key val t).map Prod.fst).Nodup := by
  unfold groupbySum
  rw [List.map_map]
  have h : (Prod.fst ∘ fun k => (k,
      ((t.filter (fun r => key r = k)).map val).sum)) = id := by
    funext k
    rfl
  rw [h, List.map_id]
  exact (t.map key).nodup_dedup

theorem reciprocal_keys (g : List (String × ℝ)) :
    ((g.map (fun p => (p.1, 1 / p.2))).map Prod.fst) = g.map Prod.fst := by
  rw [List.map_map]
  rfl

theorem map_upd_base (f : XRow → XRow) (hf : ∀ r, (f r).base = r.base)
    (t : List XRow) : (t.map f).map XRow.base = t.map XRow.base := by
  rw [List.map_map]
  induction t with
  | nil => rfl
  | cons r rest ih =>
    simp only [List.map_cons, Function.comp_apply, hf, ih]

theorem mergeOi_base (t : List XRow) :
    (mergeOi t).map XRow.base = t.map XRow.base :=
  leftMerge_map_base _ _ _ _ (groupbySum_keys_nodup _ _ _) (fun _ _ => rfl)

theorem mergeDj_base (t : List XRow) :
    (mergeDj t).map XRow.base = t.map XRow.base :=
  leftMerge_map_base _ _ _ _ (groupbySum_keys_nodup _ _ _) (fun _ _ => rfl)

theorem mergeAlpha_base (coefs : List (String × ℝ))
    (hc : (coefs.map Prod.fst).Nodup) (t : List XRow) :
    (mergeAlpha coefs t).map XRow.base = t.map XRow.base :=
  leftMerge_map_base _ _ _ _ hc (fun _ _ => rfl)

theorem mergeAi_base (t : List XRow) :
    (mergeAi t).map XRow.base = t.map XRow.base :=
  leftMerge_map_base _ _ _ _
    (by rw [reciprocal_keys]; exact groupbySum_keys_nodup _ _ _)
    (fun _ _ => rfl)

theorem mergeAi2_base (t : List XRow) :
    (mergeAi2 t).map XRow.base = t.map XRow.base :=
  leftMerge_map_base _ _ _ _
    (by rw [reciprocal_keys]; exact groupbySum_keys_nodup _ _ _)
    (fun _ _ => rfl)

theorem assignProdsimest1_base (gamma beta : ℝ) (t : List XRow) :
    (assignProdsimest1 gamma beta t).map XRow.base = t.map XRow.base :=
by
  unfold assignProdsimest1
  apply map_upd_base
  intro r
  rfl

theorem assignDj3_base (t : List XRow) :
    (assignDj3 t).map XRow.base = t.map XRow.base :=
by
  unfold assignDj3
  apply map_upd_base
  intro r
  rfl

theorem assignProdsimest2_base (gamma beta : ℝ) (t : List XRow) :
    (assignProdsimest2 gamma beta t).map XRow.base = t.map XRow.base :=
by
  unfold assignProdsimest2
  apply map_upd_base
  intro r
  rfl

theorem assignAi1_base (gamma beta : ℝ) (t : List XRow) :
    (assignAi1 gamma beta t).map XRow.base = t.map XRow.base :=
by
  unfold assignAi1
  apply map_upd_base
  intro r
  rfl

theorem assignProdsimest3_base (gamma beta : ℝ) (t : List XRow) :
    (assignProdsimest3 gamma beta t).map XRow.base = t.map XRow.base :=
by
  unfold assignProdsimest3
  apply map_upd_base
  intro r
  rfl

theorem assignAi1Scenario_base (gamma beta : ℝ) (t : List XRow) :
    (assignAi1Scenario gamma beta t).map XRow.base = t.map XRow.base :=
by
  unfold assignAi1Scenario
  apply map_upd_base
  intro r
  rfl

theorem assignProdsimest4_base (gamma beta : ℝ) (t : List XRow) :
    (assignProdsimest4 gamma beta t).map XRow.base = t.map XRow.base :=
by
  unfold assignProdsimest4
  apply map_upd_base
  intro r
  rfl

theorem assignAttrsimFitted_base (gamma_j : String → ℝ) (alphaO betaD : ℝ)
    (t : List XRow) :
    (assignAttrsimFitted gamma_j alphaO betaD t).map XRow.base
      = t.map XRow.base :=
by
  unfold assignAttrsimFitted
  apply map_upd_base
  intro r
  rfl

/-- C7: the whole derivation pipeline (marginal merges, coefficient join,
balancing-factor merges, estimate assignments) only appends derived columns:
provided the coefficient frame has unique keys, every row of the resulting
table keeps all its original input columns (identifiers, Total, Dj2_destsal,
Dist and the log-transformed predictors) and the rows stay in order. -/
theorem pipeline_preserves_base (coefs : List (String × ℝ))
    (gamma beta : ℝ) (gamma_j : String → ℝ) (alphaO betaD : ℝ)
    (t : List XRow) (hc : (coefs.map Prod.fst).Nodup) :
    (pipeline coefs gamma beta gamma_j alphaO betaD t).map XRow.base
      = t.map XRow.base := by
  unfold pipeline
  rw [assignAttrsimFitted_base, assignProdsimest4_base, mergeAi2_base,
    assignAi1Scenario_base, assignProdsimest3_base, mergeAi_base,
    assignAi1_base, assignProdsimest2_base, assignDj3_base,
    assignProdsimest1_base, mergeAlpha_base coefs hc, mergeDj_base,
    mergeOi_base]

/-- Concrete two-row starting table for the pipeline witness. -/
def wxtable : List XRow := [{ base := wrow1 }, { base := wrow2 }]

theorem pipeline_preserves_base_witness :
    (pipeline [("A", 1)] 0 0 (fun _ => 0) 0 0 wxtable).map XRow.base
      = wxtable.map XRow.base :=
  pipeline_preserves_base [("A", 1)] 0 0 (fun _ => 0) 0 0 wxtable (by simp)

end

end UrbanSim
